import Mathlib

/-!
Verification development for the layered append-only memory store
(`brain/scripts/memory_schema.py`, `memory_safety.py`, `memory_layers.py`,
`memory_policy.py`, `layered_memory_store.py`).

The Python code is shallowly embedded:
* JSON values (`dict`/`list`/`str`/numbers) become the inductive `JValue`;
  a Python `dict` is an insertion-ordered association list
  (`List (String × JValue)`), with `dGet`/`dSet` mirroring subscripting and
  item assignment (replace-in-place on existing key, append on a new key).
* Python exceptions become the `MemError` sum, returned through `Except`.
* `pathlib.Path` becomes a list of path components; joining splits on `/`
  and collapses empty and `.` components, `resolve` collapses `..`
  (symlinks are not modelled).
* Filesystem state is explicit (`FsState`): a set of directories, a map
  from paths to file contents, and the set of existing lock sentinel files.
  A stored line is modelled at the granularity of its decoded JSON value
  (`JsonLine`), abstracting the byte-level `json.dumps`/`json.loads` pair.
* Floats (`confidence = 0.7`, timeouts) are modelled as rationals.
-/

/-- A decoded JSON value, the model of the dynamic Python values that flow
through the memory store.  A Python `dict` is its field list in insertion
order. -/
inductive JValue where
  | null : JValue
  | bool (b : Bool) : JValue
  | num (q : Rat) : JValue
  | str (s : String) : JValue
  | arr (elems : List JValue) : JValue
  | obj (fields : List (String × JValue)) : JValue

/-- A Python dict holding one memory record (or one structured warning). -/
abbrev RecordDict := List (String × JValue)

/-- Python truthiness of a value (`bool(v)`): `None`, `False`, `0`, empty
string, empty list and empty dict are falsy. -/
def pyTruthy : JValue → Bool
  | .null => false
  | .bool b => b
  | .num q => decide (q ≠ 0)
  | .str s => decide (s ≠ "")
  | .arr elems => !elems.isEmpty
  | .obj fields => !fields.isEmpty

/-- Truthiness of `d.get(k)`: a missing key reads as `None`, hence falsy. -/
def pyTruthyOpt : Option JValue → Bool
  | none => false
  | some v => pyTruthy v

/-- Model of `d.get(k)` / `k in d`: first (unique) binding of the key. -/
def dGet (d : RecordDict) (k : String) : Option JValue :=
  match d with
  | [] => none
  | (k₁, v) :: rest => if k₁ = k then some v else dGet rest k

/-- Model of `d[k] = v`: replace the binding in place when the key exists,
append it otherwise (Python dicts keep insertion order). -/
def dSet (d : RecordDict) (k : String) (v : JValue) : RecordDict :=
  match d with
  | [] => [(k, v)]
  | (k₁, v₁) :: rest => if k₁ = k then (k, v) :: rest else (k₁, v₁) :: dSet rest k v

/-- Model of `d.setdefault(k, v)`: insert only when the key is absent
(presence, not truthiness, is what `setdefault` tests). -/
def dSetdefault (d : RecordDict) (k : String) (v : JValue) : RecordDict :=
  match dGet d k with
  | some _ => d
  | none => dSet d k v

/- ----------------------------------------------------------------------
memory_schema.py
---------------------------------------------------------------------- -/

/-- `REQUIRED_FIELDS` of `memory_schema.py`. -/
def REQUIRED_FIELDS : List String :=
  ["id", "created_at", "scope", "entry_type", "content", "project_id"]

/-- `ALLOWED_SCOPES` of `memory_schema.py` (membership is all that the code
uses, so the set is modelled as a list). -/
def ALLOWED_SCOPES : List String :=
  ["project_agent", "project_global", "user_agent", "user_global"]

/-- `AGENT_SCOPES` of `memory_schema.py`. -/
def AGENT_SCOPES : List String := ["project_agent", "user_agent"]

/-- A structured validation warning is itself a dict (`_warning` in
`memory_schema.py` builds `{code, message, path, line, **extra}`). -/
abbrev WarningDict := List (String × JValue)

/-- Model of `memory_schema._warning` (the `extra` keyword arguments are the
trailing bindings). -/
def mkWarning (code message path : String) (line : Nat)
    (extra : List (String × JValue)) : WarningDict :=
  [("code", .str code), ("message", .str message), ("path", .str path),
   ("line", .num line)] ++ extra

/-- Python membership test `value in set_of_strings` for a dynamic value:
true only for an equal string. -/
def strMem (v : Option JValue) (set : List String) : Bool :=
  match v with
  | some (.str s) => set.contains s
  | _ => false

/-- The default fill `if k not in d or d[k] is None: d[k] = v` used for
`tags` and `confidence` in `validate_record`. -/
def fillNullable (d : RecordDict) (k : String) (v : JValue) : RecordDict :=
  match dGet d k with
  | none => dSet d k v
  | some .null => dSet d k v
  | some _ => d

/-- The default fill `if k not in d or not d[k]: d[k] = v` used for
`source` in `validate_record`. -/
def fillFalsy (d : RecordDict) (k : String) (v : JValue) : RecordDict :=
  if ¬ pyTruthyOpt (dGet d k) then dSet d k v else d

/-- The default fill `if k not in d: d[k] = v` used for `expires_at` in
`validate_record`. -/
def fillMissing (d : RecordDict) (k : String) (v : JValue) : RecordDict :=
  match dGet d k with
  | none => dSet d k v
  | some _ => d

/-- The normalization tail of `validate_record`: `normalized = dict(record)`
followed by the four default fills, in source order. -/
def normalizeRecord (fields : RecordDict) : RecordDict :=
  fillMissing
    (fillFalsy
      (fillNullable
        (fillNullable fields "tags" (.arr []))
        "confidence" (.num 0.7))
      "source" (.str "unknown"))
    "expires_at" .null

/-- Model of `memory_schema.validate_record`.  Mirrors the source checks in
order: non-dict input, missing/falsy required fields, unknown scope, missing
`agent_id` for agent scopes; on success returns a copy with the defaults for
`tags`, `confidence`, `source`, `expires_at` filled in. -/
def validate_record (record : JValue) (line_number : Nat) (source_path : String) :
    Option RecordDict × Option WarningDict :=
  match record with
  | .obj fields =>
    let missing_fields := REQUIRED_FIELDS.filter (fun f => ¬ pyTruthyOpt (dGet fields f))
    if missing_fields ≠ [] then
      (none, some (mkWarning "missing_required_fields" "Record missing required fields."
        source_path line_number
        [("missing_fields", .arr (missing_fields.map .str))]))
    else if ¬ strMem (dGet fields "scope") ALLOWED_SCOPES then
      (none, some (mkWarning "invalid_scope" "Record scope is not supported."
        source_path line_number
        [("scope", (dGet fields "scope").getD .null),
         ("allowed_scopes", .arr (ALLOWED_SCOPES.map .str))]))
    else if strMem (dGet fields "scope") AGENT_SCOPES ∧
        ¬ pyTruthyOpt (dGet fields "agent_id") then
      (none, some (mkWarning "invalid_agent_scope" "Agent scope records require agent_id."
        source_path line_number
        [("scope", (dGet fields "scope").getD .null)]))
    else
      (some (normalizeRecord fields), none)
  | other =>
    (none, some (mkWarning "invalid_record_type" "Memory record must be a JSON object."
      source_path line_number
      [("actual_type", .str (match other with
        | .null => "NoneType"
        | .bool _ => "bool"
        | .num _ => "float"
        | .str _ => "str"
        | .arr _ => "list"
        | .obj _ => "dict"))]))

/- ----------------------------------------------------------------------
memory_safety.py
---------------------------------------------------------------------- -/

/-- `DEFAULT_REDACTION_RULES` of `memory_safety.py`. -/
def DEFAULT_REDACTION_RULES : List String :=
  ["api_key", "token", "password", "secret", "private_key"]

/-- ASCII model of the regex class `\s` (Python `re` whitespace). -/
def isPySpace (c : Char) : Bool :=
  c = ' ' || c = '\t' || c = '\n' || c = '\r' || c = '\x0b' || c = '\x0c'

/-- A character matched by the value class `[^\s,;]` of `_VALUE_PATTERN`. -/
def isValueChar (c : Char) : Bool :=
  !isPySpace c && c ≠ ',' && c ≠ ';'

/-- Case-insensitive literal match of the (escaped) rule keyword at the head
of the text; returns the matched text (original case) and the remainder. -/
def matchKeywordCI : List Char → List Char → Option (List Char × List Char)
  | [], text => some ([], text)
  | _ :: _, [] => none
  | r :: rs, c :: cs =>
    if c.toLower = r.toLower then
      (matchKeywordCI rs cs).map (fun p => (c :: p.1, p.2))
    else none

/-- Match of the regex `(<rule>\s*[:=]\s*)([^\s,;]+)` at the head of the
text (the leftmost-position attempt of `re.sub`).  `\s*` is maximal-munch:
backtracking cannot help, because `[:=]` never matches a whitespace
character.  Returns (text of group 1, remainder after the whole match). -/
def tryMatchSep (rule text : List Char) : Option (List Char × List Char) :=
  match matchKeywordCI rule text with
  | none => none
  | some (m, rest) =>
    let sp₁ := rest.takeWhile isPySpace
    match rest.dropWhile isPySpace with
    | [] => none
    | c :: r₂ =>
      if c = ':' || c = '=' then
        let sp₂ := r₂.takeWhile isPySpace
        let r₃ := r₂.dropWhile isPySpace
        let val := r₃.takeWhile isValueChar
        if val.isEmpty then none
        else some (m ++ sp₁ ++ [c] ++ sp₂, r₃.dropWhile isValueChar)
      else none

/-- Match of the regex `(<rule>\s+)([^\s,;]+)` at the head of the text.
Both `\s+` and the value run are maximal-munch, as for `tryMatchSep`. -/
def tryMatchWs (rule text : List Char) : Option (List Char × List Char) :=
  match matchKeywordCI rule text with
  | none => none
  | some (m, rest) =>
    let sp := rest.takeWhile isPySpace
    if sp.isEmpty then none
    else
      let r₂ := rest.dropWhile isPySpace
      let val := r₂.takeWhile isValueChar
      if val.isEmpty then none
      else some (m ++ sp, r₂.dropWhile isValueChar)

/-- The replacement marker of `re.sub(pattern, r"\1[REDACTED]", ...)`. -/
def REDACTED_MARKER : List Char := "[REDACTED]".data

/-- Model of one `re.sub(pattern, r"\1[REDACTED]", text)` pass: scan left to
right, at each position attempt the pattern; on a match emit group 1 and the
marker and continue after the match (non-overlapping), otherwise emit the
character and move on.  Every successful match consumes at least the
(non-empty) value run, so `text.length` steps of fuel always suffice. -/
def reSubAux (att : List Char → Option (List Char × List Char)) :
    Nat → List Char → List Char
  | 0, text => text
  | _ + 1, [] => []
  | fuel + 1, c :: rest =>
    match att (c :: rest) with
    | some (grp, after) => grp ++ REDACTED_MARKER ++ reSubAux att fuel after
    | none => c :: reSubAux att fuel rest

/-- One full substitution pass over the text. -/
def reSubRedact (att : List Char → Option (List Char × List Char))
    (text : List Char) : List Char :=
  reSubAux att text.length text

/-- Model of `memory_safety.apply_redaction_rules`: an empty rule list falls
back to the default rules (`rules or DEFAULT_REDACTION_RULES`); for each rule
the separator pattern is substituted first, then the whitespace pattern. -/
def apply_redaction_rules (text : String) (rules : List String) : String :=
  let effective_rules := if rules.isEmpty then DEFAULT_REDACTION_RULES else rules
  String.mk (effective_rules.foldl
    (fun acc rule =>
      reSubRedact (tryMatchWs rule.data) (reSubRedact (tryMatchSep rule.data) acc))
    text.data)

/-- Policy record of `memory_policy.MemoryPolicy` (dataclass defaults
included).  `project_root` is a resolved path, modelled as components. -/
structure MemoryPolicy where
  enabled : Bool := true
  read_layers : List String := ["project_agent", "project_global"]
  write_layers : List String := ["project_agent"]
  allow_user_global_write : Bool := false
  retention_days : Int := 90
  redaction_rules : List String := []
  project_root : Option (List String) := none

/-- Model of `memory_safety.should_allow_layer_write`
(`layer.startswith("user_")` is the prefix test on the characters). -/
def should_allow_layer_write (layer : String) (policy : MemoryPolicy) : Bool :=
  if "user_".data.isPrefixOf layer.data && !policy.allow_user_global_write then false
  else true

/- ----------------------------------------------------------------------
memory_layers.py and the pathlib model
---------------------------------------------------------------------- -/

/-- A filesystem path, as its list of components (POSIX, from the root). -/
abbrev FsPath := List String

/-- Splitting a character list on `/`, with the semantics of `str.split`:
`n` separators yield `n + 1` pieces, empty pieces included. -/
def splitSlashAux : List Char → List Char → List (List Char)
  | acc, [] => [acc.reverse]
  | acc, c :: rest =>
    if c = '/' then acc.reverse :: splitSlashAux [] rest
    else splitSlashAux (c :: acc) rest

/-- Model of `pathlib` path joining `p / s`: the argument is split on `/`,
and spurious empty components and single dots are collapsed (as `PurePath`
does); an absolute argument replaces the base path. -/
def pathJoin (p : FsPath) (s : String) : FsPath :=
  let parts := ((splitSlashAux [] s.data).map String.mk).filter
    (fun seg => seg ≠ "" && seg ≠ ".")
  match s.data with
  | '/' :: _ => parts
  | _ => p ++ parts

/-- Model of `Path.resolve()` for the lexical part: `..` components are
collapsed against their parent (symbolic links are not modelled; `..` above
the root stays at the root). -/
def resolveSegs (p : FsPath) : FsPath :=
  p.foldl (fun acc seg => if seg = ".." then acc.dropLast else acc ++ [seg]) []

/-- Rendering `str(path)` used for warning payloads and source attribution. -/
def pathToString (p : FsPath) : String :=
  "/" ++ String.intercalate "/" p

/-- Model of `Path.home()` (the store only ever compares the paths built on
top of it, so its value is an arbitrary fixed constant). -/
def pathHome : FsPath := ["home", "user"]

/-- `MemoryPolicy.project_memory_root`: `project_root / ".agents" / "memory"`
when a project root is configured. -/
def MemoryPolicy.project_memory_root (policy : MemoryPolicy) : Option FsPath :=
  policy.project_root.map (fun root => pathJoin (pathJoin root ".agents") "memory")

/-- `MemoryPolicy.user_memory_root`: `Path.home() / ".agents" / "memory"`. -/
def MemoryPolicy.user_memory_root (_policy : MemoryPolicy) : FsPath :=
  pathJoin (pathJoin pathHome ".agents") "memory"

/-- The Python exceptions raised by the store, as a closed error type. -/
inductive MemError where
  | valueError (msg : String) : MemError
  | permissionError (msg : String) : MemError
  | timeoutError (msg : String) : MemError
deriving DecidableEq

/-- Model of `memory_layers._memory_file`: `(base_dir / "memory.jsonl").resolve()`. -/
def memory_file (base_dir : FsPath) : FsPath :=
  resolveSegs (pathJoin base_dir "memory.jsonl")

/-- Model of `memory_layers.resolve_all_layer_paths`: the four layer files,
or a `ValueError` for a missing agent id or project root. -/
def resolve_all_layer_paths (policy : MemoryPolicy) (agent_id : String) :
    Except MemError (List (String × FsPath)) :=
  if agent_id = "" then
    .error (.valueError "agent_id is required.")
  else
    match policy.project_memory_root with
    | none => .error (.valueError "policy.project_root is required for layer resolution.")
    | some project_root =>
      let user_root := policy.user_memory_root
      .ok [("project_agent", memory_file (pathJoin (pathJoin project_root "agents") agent_id)),
           ("project_global", memory_file (pathJoin project_root "global")),
           ("user_agent", memory_file (pathJoin (pathJoin user_root "agents") agent_id)),
           ("user_global", memory_file (pathJoin user_root "global"))]

/-- Lookup in the path dict returned by `resolve_all_layer_paths`. -/
def pathsGet (paths : List (String × FsPath)) (layer : String) : Option FsPath :=
  match paths with
  | [] => none
  | (l, p) :: rest => if l = layer then some p else pathsGet rest layer

/-- One entry of the retrieval plan (`{"layer", "source_layer", "path"}`). -/
structure PlanEntry where
  layer : String
  source_layer : String
  path : FsPath
deriving DecidableEq

/-- `ALLOWED_LAYERS` of `memory_policy.py` (the same four names as
`ALLOWED_SCOPES` of `memory_schema.py`). -/
def ALLOWED_LAYERS : List String :=
  ["project_agent", "project_global", "user_agent", "user_global"]

/-- The loop body of `build_retrieval_plan`: walk `read_layers` in order,
rejecting any name outside the four known layers. -/
def planLayers (paths : List (String × FsPath)) :
    List String → Except MemError (List PlanEntry)
  | [] => .ok []
  | layer :: rest =>
    if layer ∈ ALLOWED_LAYERS then
      match planLayers paths rest with
      | .error e => .error e
      | .ok plan =>
        .ok ({ layer := layer, source_layer := layer,
               path := (pathsGet paths layer).getD [] } :: plan)
    else .error (.valueError ("Unknown read layer: " ++ layer))

/-- Model of `memory_layers.build_retrieval_plan`. -/
def build_retrieval_plan (policy : MemoryPolicy) (agent_id : String) :
    Except MemError (List PlanEntry) :=
  match resolve_all_layer_paths policy agent_id with
  | .error e => .error e
  | .ok paths => planLayers paths policy.read_layers

/- ----------------------------------------------------------------------
layered_memory_store.py — filesystem state and the store
---------------------------------------------------------------------- -/

/-- One raw line of a JSONL layer file, after the `json.loads` attempt:
stripped-blank, undecodable, or decoding to a JSON value.  The byte-level
text of a line is abstracted behind its decoding. -/
inductive JsonLine where
  | blank : JsonLine
  | bad (error : String) : JsonLine
  | ok (v : JValue) : JsonLine

/-- Explicit filesystem state: existing directories, file contents keyed by
path, and the existing `.lock` sentinel files. -/
structure FsState where
  dirs : List FsPath
  files : List (FsPath × List JsonLine)
  locks : List FsPath

/-- The empty filesystem. -/
def FsState.empty : FsState := { dirs := [], files := [], locks := [] }

/-- Contents of the file at a path, `none` when it does not exist. -/
def fsRead (files : List (FsPath × List JsonLine)) (p : FsPath) : Option (List JsonLine) :=
  match files with
  | [] => none
  | (q, lines) :: rest => if q = p then some lines else fsRead rest p

/-- Appending one line to a file (opened with mode `"a"`, which creates the
file when missing). -/
def fsAppend (files : List (FsPath × List JsonLine)) (p : FsPath) (line : JsonLine) :
    List (FsPath × List JsonLine) :=
  match files with
  | [] => [(p, [line])]
  | (q, lines) :: rest =>
    if q = p then (q, lines ++ [line]) :: rest else (q, lines) :: fsAppend rest p line

/-- All the directories created by `target.parent.mkdir(parents=True)`:
every non-empty prefix of the parent path. -/
def parentDirsOf (target : FsPath) : List FsPath :=
  (List.range target.dropLast.length).map (fun k => target.dropLast.take (k + 1))

/-- `mkdir(parents=True, exist_ok=True)` on the parent of `target`. -/
def fsMkdirParents (st : FsState) (target : FsPath) : FsState :=
  { st with dirs := st.dirs ++ (parentDirsOf target).filter (fun d => !st.dirs.contains d) }

/-- The lock sentinel path: `Path(str(target_file) + ".lock")`. -/
def lockPathOf (target : FsPath) : FsPath :=
  match target.getLast? with
  | none => [".lock"]
  | some last => target.dropLast ++ [last ++ ".lock"]

/-- The loop of `load_jsonl_records`, over the enumerated lines of an
existing file: blank lines are skipped, undecodable lines produce an
`invalid_json` warning, decoded lines go through `validate_record` and
produce either a record or the validation warning. -/
def loadLines (source_path : FsPath) :
    Nat → List JsonLine → List RecordDict × List WarningDict
  | _, [] => ([], [])
  | line_number, line :: rest =>
    let (records, warnings) := loadLines source_path (line_number + 1) rest
    match line with
    | .blank => (records, warnings)
    | .bad err =>
      (records,
       mkWarning "invalid_json" "Could not decode JSON line."
         (pathToString source_path) line_number [("error", .str err)] :: warnings)
    | .ok v =>
      match validate_record v line_number (pathToString source_path) with
      | (_, some warning) => (records, warning :: warnings)
      | (some validated, none) => (validated :: records, warnings)
      | (none, none) => (records, warnings)

/-- Model of `memory_schema.load_jsonl_records`: a missing file yields no
records and no warnings; otherwise the lines are processed in order with
line numbers starting at 1. -/
def load_jsonl_records (st : FsState) (path : FsPath) :
    List RecordDict × List WarningDict :=
  match fsRead st.files path with
  | none => ([], [])
  | some lines => loadLines path 1 lines

/-- The store object after `LayeredMemoryStore.__init__`: it owns the policy
and the agent identity and has resolved all four layer paths once. -/
structure StoreCtx where
  policy : MemoryPolicy
  agent_id : String
  paths : List (String × FsPath)

/-- Model of `LayeredMemoryStore.__init__` (lock tuning parameters are
handled separately by the lock-acquisition model). -/
def mkStore (policy : MemoryPolicy) (agent_id : String) : Except MemError StoreCtx :=
  if agent_id = "" then .error (.valueError "agent_id is required.")
  else
    match resolve_all_layer_paths policy agent_id with
    | .error e => .error e
    | .ok paths => .ok { policy := policy, agent_id := agent_id, paths := paths }

/-- The redaction step of `_prepare_record` for the global layers: redact a
string `content` field and every string entry of a list `tags` field. -/
def redactGlobal (rules : List String) (updated : RecordDict) : RecordDict :=
  let u₁ :=
    match dGet updated "content" with
    | some (.str s) => dSet updated "content" (.str (apply_redaction_rules s rules))
    | _ => updated
  match dGet u₁ "tags" with
  | some (.arr tags) =>
    dSet u₁ "tags" (.arr (tags.map (fun tag =>
      match tag with
      | .str s => .str (apply_redaction_rules s rules)
      | other => other)))
  | _ => u₁

/-- Rendering `str(value)` for the append return value (only the shapes the
store can actually return are rendered faithfully; record ids are strings). -/
def pyStr : JValue → String
  | .str s => s
  | .bool true => "True"
  | .bool false => "False"
  | .null => "None"
  | .num q => toString q
  | .arr _ => "<list>"
  | .obj _ => "<dict>"

/-- Model of `LayeredMemoryStore._prepare_record`: the write-layers check,
the policy permission check, the copy of the caller's record, scope
stamping, `agent_id` defaulting for agent layers, redaction for global
layers, and schema validation. -/
def prepare_record (ctx : StoreCtx) (layer : String) (record : RecordDict) :
    Except MemError RecordDict :=
  if layer ∉ ctx.policy.write_layers then
    .error (.valueError ("Layer '" ++ layer ++ "' is not enabled for writes."))
  else if ¬ should_allow_layer_write layer ctx.policy then
    .error (.permissionError ("Writes to layer '" ++ layer ++ "' are blocked by policy."))
  else
    let updated := record
    let updated := dSet updated "scope" (.str layer)
    let updated :=
      if layer = "project_agent" ∨ layer = "user_agent" then
        dSetdefault updated "agent_id" (.str ctx.agent_id)
      else updated
    let updated :=
      if layer = "project_global" ∨ layer = "user_global" then
        redactGlobal ctx.policy.redaction_rules updated
      else updated
    match validate_record (.obj updated) 0 (pathToString ((pathsGet ctx.paths layer).getD [])) with
    | (_, some _warning) =>
      .error (.valueError ("Invalid record for layer '" ++ layer ++ "'."))
    | (validated, none) =>
      -- validate_record never returns (none, none); see validate_record_shape.
      .ok (validated.getD [])

/-- Model of `LayeredMemoryStore.append_entry` as a sequential state
transition.  A pre-existing lock sentinel can never be released by anyone
else in a sequential run, so the acquisition loop of `_file_lock` is
guaranteed to end in `TimeoutError` in that case (the loop itself is studied
by the lock-acquisition model below); otherwise the sentinel is created,
the serialized record is appended, flushed and fsynced, and the sentinel is
removed again. -/
def append_entry (ctx : StoreCtx) (st : FsState) (layer : String) (record : RecordDict) :
    Except MemError String × FsState :=
  match pathsGet ctx.paths layer with
  | none => (.error (.valueError ("Unknown layer: " ++ layer)), st)
  | some target =>
    let st₁ := fsMkdirParents st target
    match prepare_record ctx layer record with
    | .error e => (.error e, st₁)
    | .ok validated =>
      let lock_path := lockPathOf target
      if lock_path ∈ st₁.locks then
        (.error (.timeoutError ("Timed out acquiring lock for " ++ pathToString target)), st₁)
      else
        let st₂ := { st₁ with locks := st₁.locks ++ [lock_path] }
        let st₃ := { st₂ with files := fsAppend st₂.files target (.ok (.obj validated)) }
        let st₄ := { st₃ with locks := st₃.locks.erase lock_path }
        (.ok (pyStr ((dGet validated "id").getD .null)), st₄)

/-- Source attribution added by `get_all_records` to each loaded record. -/
def tagSource (layer : String) (path : FsPath) (record : RecordDict) : RecordDict :=
  dSet (dSet record "source_layer" (.str layer)) "source_path" (.str (pathToString path))

/-- Model of `LayeredMemoryStore.get_all_records`: build the retrieval plan,
load each layer in plan order, walk each layer's records newest-first and
tag them with their source layer and path. -/
def get_all_records (policy : MemoryPolicy) (agent_id : String) (st : FsState) :
    Except MemError (List RecordDict) :=
  match build_retrieval_plan policy agent_id with
  | .error e => .error e
  | .ok plan =>
    .ok (plan.flatMap (fun entry =>
      ((load_jsonl_records st entry.path).1.reverse.map (tagSource entry.layer entry.path))))

/- ----------------------------------------------------------------------
Heap-level model of the write path (dict identity and mutation)
---------------------------------------------------------------------- -/

/-- A heap of Python dict objects: the cell index is the object identity.
This finer model makes dict aliasing and in-place mutation observable, so
that "the store never mutates its caller's record" is a real statement and
not an artifact of a pure embedding. -/
abbrev DictHeap := List RecordDict

/-- Allocation of a fresh dict object (`dict(...)` copies into a new cell). -/
def hAlloc (h : DictHeap) (d : RecordDict) : DictHeap × Nat :=
  (h ++ [d], h.length)

/-- The dict stored in a cell (dangling references read as an empty dict). -/
def hGet (h : DictHeap) (ref : Nat) : RecordDict :=
  (h[ref]?).getD []

/-- In-place mutation of the dict in one cell. -/
def hMod (h : DictHeap) (ref : Nat) (f : RecordDict → RecordDict) : DictHeap :=
  h.set ref (f (hGet h ref))

/-- Heap-level model of `_prepare_record`: the caller's dict is only read;
`updated = dict(record)` allocates a fresh cell, every subsequent item
assignment and `setdefault` mutates that fresh cell, and `validate_record`
builds its normalized copy in yet another fresh cell. -/
def prepare_recordH (ctx : StoreCtx) (layer : String) (h : DictHeap) (ref : Nat) :
    Except MemError Nat × DictHeap :=
  if layer ∉ ctx.policy.write_layers then
    (.error (.valueError ("Layer '" ++ layer ++ "' is not enabled for writes.")), h)
  else if ¬ should_allow_layer_write layer ctx.policy then
    (.error (.permissionError ("Writes to layer '" ++ layer ++ "' are blocked by policy.")), h)
  else
    let (h₁, updated) := hAlloc h (hGet h ref)
    let h₂ := hMod h₁ updated (fun d => dSet d "scope" (.str layer))
    let h₃ :=
      if layer = "project_agent" ∨ layer = "user_agent" then
        hMod h₂ updated (fun d => dSetdefault d "agent_id" (.str ctx.agent_id))
      else h₂
    let h₄ :=
      if layer = "project_global" ∨ layer = "user_global" then
        hMod h₃ updated (redactGlobal ctx.policy.redaction_rules)
      else h₃
    match validate_record (.obj (hGet h₄ updated)) 0
        (pathToString ((pathsGet ctx.paths layer).getD [])) with
    | (_, some _warning) =>
      (.error (.valueError ("Invalid record for layer '" ++ layer ++ "'.")), h₄)
    | (validated, none) =>
      let (h₅, vref) := hAlloc h₄ (validated.getD [])
      (.ok vref, h₅)

/-- Heap-level model of `append_entry` (the filesystem part has no effect on
the dict heap and is carried by the coarser `append_entry` model). -/
def append_entryH (ctx : StoreCtx) (layer : String) (h : DictHeap) (ref : Nat) :
    Except MemError Nat × DictHeap :=
  match pathsGet ctx.paths layer with
  | none => (.error (.valueError ("Unknown layer: " ++ layer)), h)
  | some _target => prepare_recordH ctx layer h ref

/- ----------------------------------------------------------------------
The _file_lock acquisition loop
---------------------------------------------------------------------- -/

/-- One observation of the acquisition loop of `_file_lock`: whether the
exclusive `os.open(..., O_CREAT | O_EXCL)` of attempt `k` succeeds. -/
abbrev LockOracle := Nat → Bool

/-- The exit condition of the acquisition loop at attempt `k`: either the
exclusive create succeeds (the `break`), or it fails and the elapsed time
has reached `lock_timeout_seconds` (the `raise TimeoutError`).  `times k` is
the value `time.time()` reads when attempt `k` fails, `start` the value read
before the loop. -/
def fileLockExit (oracle : LockOracle) (times : Nat → ℚ) (start timeout : ℚ)
    (k : Nat) : Prop :=
  oracle k = true ∨ (oracle k = false ∧ times k - start ≥ timeout)

/- ----------------------------------------------------------------------
Concurrent appends to one shared layer file
---------------------------------------------------------------------- -/

/-- The program counter of one writer working through its M appends of one
`append_entry` run each: `idle j` = about to start append `j` (it spins in
the acquisition loop until the exclusive create succeeds), `locked j rem` =
holding the lock sentinel with `rem` still to be written of append `j`'s
serialized line. -/
inductive WStatus (α : Type) where
  | idle (j : Nat) : WStatus α
  | locked (j : Nat) (rem : List α) : WStatus α

/-- Global state of N concurrent writers sharing one layer file: each
writer's program counter, the owner of the lock sentinel (`none` = the
sentinel file does not exist), and the bytes of the shared file. -/
structure CState (α : Type) where
  ws : Nat → WStatus α
  lk : Option Nat
  file : List α

/-- Pointwise update of one writer's program counter. -/
def updW {α : Type} (ws : Nat → WStatus α) (i : Nat) (w : WStatus α) :
    Nat → WStatus α :=
  fun k => if k = i then w else ws k

/-- One atomic step of the system of `N` writers, each appending the
payloads `payload i 0, …, payload i (M-1)` to the shared file through
`append_entry`:

* `acquire` — the exclusive `os.open(lock, O_CREAT | O_EXCL)` succeeds,
  which is only possible while the sentinel does not exist (`lk = none`);
  the writer buffers its serialized line.  A failed attempt changes no
  state (the writer stays `idle`), so it needs no transition.
* `write` — the writer emits the next byte of its line to the shared file.
  The code writes the whole line inside the critical section; byte
  granularity models the weakest guarantee the OS gives for plain
  appends, so mutual exclusion is what must make lines contiguous.
* `release` — `flush`/`fsync` complete and the sentinel is unlinked. -/
inductive CStep (N M : Nat) {α : Type} (payload : Nat → Nat → List α) :
    CState α → CState α → Prop where
  | acquire {s : CState α} {i j : Nat} :
      i < N → s.ws i = .idle j → j < M → s.lk = none →
      CStep N M payload s ⟨updW s.ws i (.locked j (payload i j)), some i, s.file⟩
  | write {s : CState α} {i j : Nat} {t : α} {rest : List α} :
      i < N → s.ws i = .locked j (t :: rest) →
      CStep N M payload s ⟨updW s.ws i (.locked j rest), s.lk, s.file ++ [t]⟩
  | release {s : CState α} {i j : Nat} :
      i < N → s.ws i = .locked j [] →
      CStep N M payload s ⟨updW s.ws i (.idle (j + 1)), none, s.file⟩

/-- The initial state: no writer has started, the sentinel does not exist,
the shared layer file is empty. -/
def cInit (α : Type) : CState α := ⟨fun _ => .idle 0, none, []⟩

/-- Reachability under interleaved writer steps. -/
def CReach (N M : Nat) {α : Type} (payload : Nat → Nat → List α) (s : CState α) : Prop :=
  Relation.ReflTransGen (CStep N M payload) (cInit α) s

/-- A finished run: every writer has completed all `M` of its appends. -/
def CComplete (N M : Nat) {α : Type} (s : CState α) : Prop :=
  ∀ i, i < N → s.ws i = WStatus.idle M

/-- The number of appends writer state `w` has fully completed. -/
def wDone {α : Type} : WStatus α → Nat
  | .idle j => j
  | .locked j _ => j

/-- All (writer, append) pairs, in writer-major order. -/
def allPairs (N M : Nat) : List (Nat × Nat) :=
  (List.range N).flatMap (fun i => (List.range M).map (fun j => (i, j)))

/-- The inductive invariant of the writer system: the lock owner is the only
non-idle writer, and the shared file is a concatenation of the complete
lines of the finished appends (in some interleaving order `done`) followed
by the written prefix of the owner's line, if any. -/
structure CInv (N M : Nat) {α : Type} (payload : Nat → Nat → List α)
    (s : CState α) : Prop where
  locked_lk : ∀ i j rem, s.ws i = .locked j rem → s.lk = some i ∧ i < N ∧ j < M
  lk_locked : ∀ i, s.lk = some i → ∃ j rem, s.ws i = .locked j rem
  done_le : ∀ i, wDone (s.ws i) ≤ M
  fileInv : ∃ done : List (Nat × Nat), done.Nodup ∧
    (∀ p : Nat × Nat, p ∈ done ↔ p.1 < N ∧ p.2 < wDone (s.ws p.1)) ∧
    match s.lk with
    | none => s.file = done.flatMap (fun p => payload p.1 p.2)
    | some i => ∃ j rem written, s.ws i = .locked j rem ∧
        payload i j = written ++ rem ∧
        s.file = done.flatMap (fun p => payload p.1 p.2) ++ written

/- ----------------------------------------------------------------------
Splitting a file into its newline-terminated lines
---------------------------------------------------------------------- -/

/-- The lines of a text, as Python's file iteration sees them, with the
`\n` terminators stripped (`line.strip()` in the loader removes them). -/
def linesOf : List Char → List (List Char)
  | [] => []
  | c :: rest =>
    if c = '\n' then [] :: linesOf rest
    else
      match linesOf rest with
      | [] => [[c]]
      | l :: ls => (c :: l) :: ls

/-- A concrete store for the write-path counterexamples: the default policy
over project root `/proj`, agent `a`. -/
def cexPolicy : MemoryPolicy := { project_root := some ["proj"] }

/-- The store built by `LayeredMemoryStore(cexPolicy, "a")`. -/
def cexCtx : StoreCtx :=
  match mkStore cexPolicy "a" with
  | .ok ctx => ctx
  | .error _ => { policy := cexPolicy, agent_id := "a", paths := [] }

/-- Substring test on character lists (used to express "the literal secret
never occurs"). -/
def hasSubstring (needle : List Char) : List Char → Bool
  | [] => needle.isEmpty
  | c :: rest => needle.isPrefixOf (c :: rest) || hasSubstring needle rest

/-- Does the substring occur anywhere in a JSON value (in any nested string,
any key, or any element)?  Fuel-bounded; exhausted fuel conservatively
reports an occurrence. -/
def jvalueHasSub : Nat → List Char → JValue → Bool
  | 0, _, _ => true
  | _ + 1, needle, .str s => hasSubstring needle s.data
  | _ + 1, _, .null => false
  | _ + 1, _, .bool _ => false
  | _ + 1, _, .num _ => false
  | fuel + 1, needle, .arr elems => elems.any (jvalueHasSub fuel needle)
  | fuel + 1, needle, .obj fields =>
    fields.any (fun kv => hasSubstring needle kv.1.data || jvalueHasSub fuel needle kv.2)

/-- The store of the C4 scenario: redaction rule `["api_key"]`, writes to
`project_global` enabled. -/
def c4Ctx : StoreCtx :=
  match mkStore { write_layers := ["project_agent", "project_global"],
                  redaction_rules := ["api_key"],
                  project_root := some ["proj"] } "agentA" with
  | .ok ctx => ctx
  | .error _ => { policy := {}, agent_id := "agentA", paths := [] }

/-- The record of the C4 scenario, as appended by the caller. -/
def c4Record : RecordDict :=
  [("id", .str "r1"), ("created_at", .str "t"), ("scope", .str "project_global"),
   ("entry_type", .str "note"), ("content", .str "my api_key: sk-12345"),
   ("project_id", .str "p"), ("tags", .arr [.str "api_key:secret"])]

/-- The record as it reaches the `project_global` layer file: content and
tag values redacted, schema defaults filled. -/
def c4Stored : RecordDict :=
  [("id", .str "r1"), ("created_at", .str "t"), ("scope", .str "project_global"),
   ("entry_type", .str "note"), ("content", .str "my api_key: [REDACTED]"),
   ("project_id", .str "p"), ("tags", .arr [.str "api_key:[REDACTED]"]),
   ("confidence", .num 0.7), ("source", .str "unknown"), ("expires_at", .null)]

/-- An agent identity that is a single normal path component: non-empty, no
separator, and not one of the special components collapsed by `pathlib` or
`resolve`. -/
def plainComponent (s : String) : Prop :=
  s.data ≠ [] ∧ '/' ∉ s.data ∧ s ≠ "." ∧ s ≠ ".."

instance (s : String) : Decidable (plainComponent s) := by
  unfold plainComponent
  infer_instance

/-- The caller-side test `record["id"] == X` for a string id `X`. -/
def idIs (x : String) (r : RecordDict) : Bool :=
  match dGet r "id" with
  | some (.str s) => s = x
  | _ => false

/-- The C1 witness store: layer files holding one `project_global` record
with id `x` (appended first) and one `project_agent` record with the same
id (appended later). -/
def c1St : FsState :=
  { dirs := [],
    files :=
      [(["proj", ".agents", "memory", "global", "memory.jsonl"],
        [JsonLine.ok (.obj [("id", .str "x"), ("created_at", .str "t1"),
          ("scope", .str "project_global"), ("entry_type", .str "note"),
          ("content", .str "old"), ("project_id", .str "p")])]),
       (["proj", ".agents", "memory", "agents", "a", "memory.jsonl"],
        [JsonLine.ok (.obj [("id", .str "x"), ("created_at", .str "t2"),
          ("scope", .str "project_agent"), ("entry_type", .str "note"),
          ("content", .str "new"), ("project_id", .str "p"),
          ("agent_id", .str "a")])])],
    locks := [] }

/-- A concrete already-normalized record for the C6 witness run. -/
def c6Rec : RecordDict :=
  [("id", .str "x"), ("created_at", .str "t"), ("scope", .str "project_global"),
   ("entry_type", .str "note"), ("content", .str "c"), ("project_id", .str "p"),
   ("tags", .arr []), ("confidence", .num 0.7), ("source", .str "unknown"),
   ("expires_at", .null)]

/-- The serialized body of that record, abstracted to one character. -/
def c6Body : Nat → Nat → List Char := fun _ _ => ['r']

/-- The decoder of the C6 witness run. -/
def c6Decode : List Char → Option JValue :=
  fun l => if l = ['r'] then some (.obj c6Rec) else none

/-- The intermediate and final states of the single-writer witness trace. -/
def c6S1 : CState Char :=
  ⟨updW (fun _ => WStatus.idle 0) 0 (WStatus.locked 0 ['r', '\n']), some 0, []⟩

def c6S2 : CState Char :=
  ⟨updW (updW (fun _ => WStatus.idle 0) 0 (WStatus.locked 0 ['r', '\n'])) 0
    (WStatus.locked 0 ['\n']), some 0, ['r']⟩

def c6S3 : CState Char :=
  ⟨updW (updW (updW (fun _ => WStatus.idle 0) 0 (WStatus.locked 0 ['r', '\n'])) 0
    (WStatus.locked 0 ['\n'])) 0 (WStatus.locked 0 []), some 0, ['r', '\n']⟩

def c6Final : CState Char :=
  ⟨updW (updW (updW (updW (fun _ => WStatus.idle 0) 0 (WStatus.locked 0 ['r', '\n'])) 0
    (WStatus.locked 0 ['\n'])) 0 (WStatus.locked 0 [])) 0 (WStatus.idle 1),
   none, ['r', '\n']⟩

theorem dGet_dSet_self (d : RecordDict) (k : String) (v : JValue) :
    dGet (dSet d k v) k = some v := by
  induction d with
  | nil => simp [dGet, dSet]
  | cons hd tl ih =>
    obtain ⟨k₁, v₁⟩ := hd
    by_cases h : k₁ = k <;> simp [dGet, dSet, h, ih]

theorem dGet_dSet_ne (d : RecordDict) {k k₂ : String} (v : JValue) (h : k ≠ k₂) :
    dGet (dSet d k v) k₂ = dGet d k₂ := by
  induction d with
  | nil => simp [dGet, dSet, h]
  | cons hd tl ih =>
    obtain ⟨k₁, v₁⟩ := hd
    by_cases h₁ : k₁ = k
    · subst h₁
      simp [dGet, dSet, h]
    · simp [dGet, dSet, h₁, ih]

theorem updW_self {α : Type} (ws : Nat → WStatus α) (i : Nat) (w : WStatus α) :
    updW ws i w i = w := by
  simp [updW]

theorem updW_ne {α : Type} (ws : Nat → WStatus α) {i k : Nat} (w : WStatus α)
    (h : k ≠ i) : updW ws i w k = ws k := by
  simp [updW, h]

theorem CInv_init (N M : Nat) {α : Type} (payload : Nat → Nat → List α) :
    CInv N M payload (cInit α) := by
  refine ⟨?_, ?_, ?_, ⟨[], ?_, ?_, ?_⟩⟩
  · intro i j rem h
    simp [cInit] at h
  · intro i h
    simp [cInit] at h
  · intro i
    simp [cInit, wDone]
  · simp
  · intro p
    simp [cInit, wDone]
  · simp [cInit]

theorem CInv_step (N M : Nat) {α : Type} {payload : Nat → Nat → List α}
    {s s₂ : CState α} (inv : CInv N M payload s) (step : CStep N M payload s s₂) :
    CInv N M payload s₂ := by
  obtain ⟨ldone, hnd, hmem, hfile⟩ := inv.fileInv
  cases step with
  | @acquire i j hiN hidle hjM hlk =>
    rw [hlk] at hfile
    refine ⟨?_, ?_, ?_, ?_⟩ <;> dsimp only
    · intro k j₂ rem₂ h
      by_cases hk : k = i
      · subst hk
        rw [updW_self] at h
        cases h
        exact ⟨rfl, hiN, hjM⟩
      · rw [updW_ne _ _ hk] at h
        have h₂ := (inv.locked_lk k j₂ rem₂ h).1
        rw [hlk] at h₂
        cases h₂
    · intro k h
      cases h
      exact ⟨j, payload i j, updW_self _ _ _⟩
    · intro k
      by_cases hk : k = i
      · subst hk
        rw [updW_self]
        simpa [wDone, hidle] using inv.done_le k
      · rw [updW_ne _ _ hk]
        exact inv.done_le k
    · refine ⟨ldone, hnd, ?_, ?_⟩
      · intro p
        rw [hmem p]
        by_cases hp : p.1 = i
        · rw [hp, updW_self, hidle]
          rfl
        · rw [updW_ne _ _ hp]
      · exact ⟨j, payload i j, [], updW_self _ _ _, rfl, by simpa using hfile⟩
  | @write i j t rest hiN hlocked =>
    obtain ⟨hlk, hiN₂, hjM⟩ := inv.locked_lk i j (t :: rest) hlocked
    rw [hlk] at hfile
    obtain ⟨j₀, rem₀, written, hw₀, hpay, hfl⟩ := hfile
    rw [hlocked] at hw₀
    cases hw₀
    refine ⟨?_, ?_, ?_, ?_⟩ <;> dsimp only
    · intro k j₂ rem₂ h
      by_cases hk : k = i
      · subst hk
        rw [updW_self] at h
        cases h
        exact ⟨hlk, hiN, hjM⟩
      · rw [updW_ne _ _ hk] at h
        have h₂ := (inv.locked_lk k j₂ rem₂ h).1
        rw [hlk] at h₂
        cases h₂
        exact absurd rfl hk
    · intro k h
      rw [hlk] at h
      cases h
      exact ⟨j, rest, updW_self _ _ _⟩
    · intro k
      by_cases hk : k = i
      · subst hk
        rw [updW_self]
        simpa [wDone, hlocked] using inv.done_le k
      · rw [updW_ne _ _ hk]
        exact inv.done_le k
    · refine ⟨ldone, hnd, ?_, ?_⟩
      · intro p
        rw [hmem p]
        by_cases hp : p.1 = i
        · rw [hp, updW_self, hlocked]
          rfl
        · rw [updW_ne _ _ hp]
      · rw [hlk]
        refine ⟨j, rest, written ++ [t], updW_self _ _ _, ?_, ?_⟩
        · rw [hpay, List.append_assoc]
          rfl
        · rw [hfl, List.append_assoc]
  | @release i j hiN hlocked =>
    obtain ⟨hlk, hiN₂, hjM⟩ := inv.locked_lk i j [] hlocked
    rw [hlk] at hfile
    obtain ⟨j₀, rem₀, written, hw₀, hpay, hfl⟩ := hfile
    rw [hlocked] at hw₀
    cases hw₀
    rw [List.append_nil] at hpay
    have hnotin : (i, j) ∉ ldone := by
      intro hin
      have h₂ := (hmem (i, j)).1 hin
      rw [hlocked] at h₂
      exact absurd h₂.2 (by simp [wDone])
    refine ⟨?_, ?_, ?_, ?_⟩ <;> dsimp only
    · intro k j₂ rem₂ h
      by_cases hk : k = i
      · subst hk
        rw [updW_self] at h
        cases h
      · rw [updW_ne _ _ hk] at h
        have h₂ := (inv.locked_lk k j₂ rem₂ h).1
        rw [hlk] at h₂
        cases h₂
        exact absurd rfl hk
    · intro k h
      cases h
    · intro k
      by_cases hk : k = i
      · subst hk
        rw [updW_self]
        simpa [wDone] using hjM
      · rw [updW_ne _ _ hk]
        exact inv.done_le k
    · refine ⟨ldone ++ [(i, j)], ?_, ?_, ?_⟩
      · simp [List.nodup_append, hnd, hnotin]
      · intro p
        obtain ⟨p₁, p₂⟩ := p
        simp only [List.mem_append, List.mem_singleton, hmem (p₁, p₂)]
        by_cases hp : p₁ = i
        · subst hp
          rw [updW_self, hlocked]
          simp only [wDone, Prod.mk.injEq, hiN, true_and]
          omega
        · rw [updW_ne _ _ hp]
          simp [hp]
      · rw [List.flatMap_append, hfl]
        simp [← hpay]

theorem CInv_reach (N M : Nat) {α : Type} {payload : Nat → Nat → List α}
    {s : CState α} (h : CReach N M payload s) : CInv N M payload s := by
  induction h with
  | refl => exact CInv_init N M payload
  | tail _ step ih => exact CInv_step N M ih step

theorem allPairs_eq_product (N M : Nat) :
    allPairs N M = (List.range N).product (List.range M) := rfl

theorem mem_allPairs (N M : Nat) (p : Nat × Nat) :
    p ∈ allPairs N M ↔ p.1 < N ∧ p.2 < M := by
  obtain ⟨a, b⟩ := p
  rw [allPairs_eq_product]
  simp [List.mem_product]

theorem allPairs_nodup (N M : Nat) : (allPairs N M).Nodup := by
  rw [allPairs_eq_product]
  exact List.Nodup.product (List.nodup_range N) (List.nodup_range M)

/-- In any completed interleaved run of the N×M appends, the shared file is
exactly the concatenation of the N×M complete payload lines in some order:
no payload is lost, truncated, or interleaved with another. -/
theorem file_is_permuted_payloads (N M : Nat) {α : Type}
    (payload : Nat → Nat → List α) (s : CState α)
    (hr : CReach N M payload s) (hc : CComplete N M s) :
    ∃ done : List (Nat × Nat), done.Perm (allPairs N M) ∧
      s.file = done.flatMap (fun p => payload p.1 p.2) := by
  have inv := CInv_reach N M hr
  have hlk : s.lk = none := by
    cases h : s.lk with
    | none => rfl
    | some i =>
      obtain ⟨j, rem, hw⟩ := inv.lk_locked i h
      have hiN := (inv.locked_lk i j rem hw).2.1
      rw [hc i hiN] at hw
      cases hw
  obtain ⟨ldone, hnd, hmem, hfile⟩ := inv.fileInv
  rw [hlk] at hfile
  refine ⟨ldone, ?_, hfile⟩
  refine (List.perm_ext_iff_of_nodup hnd (allPairs_nodup N M)).mpr ?_
  intro p
  rw [hmem p, mem_allPairs]
  constructor
  · rintro ⟨h₁, h₂⟩
    rw [hc p.1 h₁] at h₂
    exact ⟨h₁, h₂⟩
  · rintro ⟨h₁, h₂⟩
    refine ⟨h₁, ?_⟩
    rw [hc p.1 h₁]
    exact h₂

/- ----------------------------------------------------------------------
Properties of validate_record and its normalization
---------------------------------------------------------------------- -/

theorem dGet_fillNullable_ne (d : RecordDict) {k k₂ : String} (v : JValue)
    (h : k ≠ k₂) : dGet (fillNullable d k v) k₂ = dGet d k₂ := by
  unfold fillNullable
  cases hg : dGet d k with
  | none => exact dGet_dSet_ne d v h
  | some w => cases w <;> simp [dGet_dSet_ne d _ h]

theorem dGet_fillFalsy_ne (d : RecordDict) {k k₂ : String} (v : JValue)
    (h : k ≠ k₂) : dGet (fillFalsy d k v) k₂ = dGet d k₂ := by
  unfold fillFalsy
  split
  · exact dGet_dSet_ne d v h
  · rfl

theorem dGet_fillMissing_ne (d : RecordDict) {k k₂ : String} (v : JValue)
    (h : k ≠ k₂) : dGet (fillMissing d k v) k₂ = dGet d k₂ := by
  unfold fillMissing
  cases hg : dGet d k with
  | none => exact dGet_dSet_ne d v h
  | some w => rfl

/-- Normalization only touches the four defaulted keys. -/
theorem dGet_normalizeRecord_ne (d : RecordDict) {k : String}
    (h₁ : k ≠ "tags") (h₂ : k ≠ "confidence") (h₃ : k ≠ "source")
    (h₄ : k ≠ "expires_at") : dGet (normalizeRecord d) k = dGet d k := by
  unfold normalizeRecord
  rw [dGet_fillMissing_ne _ _ (Ne.symm h₄), dGet_fillFalsy_ne _ _ (Ne.symm h₃),
    dGet_fillNullable_ne _ _ (Ne.symm h₂), dGet_fillNullable_ne _ _ (Ne.symm h₁)]

theorem dGet_fillNullable_self (d : RecordDict) (k : String) {v : JValue}
    (hv : v ≠ .null) : ∃ w, dGet (fillNullable d k v) k = some w ∧ w ≠ .null := by
  unfold fillNullable
  cases hg : dGet d k with
  | none => exact ⟨v, by rw [dGet_dSet_self], hv⟩
  | some w =>
    cases w with
    | null => exact ⟨v, by rw [dGet_dSet_self], hv⟩
    | bool b => exact ⟨.bool b, hg, by simp⟩
    | num q => exact ⟨.num q, hg, by simp⟩
    | str s => exact ⟨.str s, hg, by simp⟩
    | arr a => exact ⟨.arr a, hg, by simp⟩
    | obj o => exact ⟨.obj o, hg, by simp⟩

theorem fillNullable_of_nonnull (d : RecordDict) (k : String) (v : JValue)
    {w : JValue} (hg : dGet d k = some w) (hw : w ≠ .null) :
    fillNullable d k v = d := by
  unfold fillNullable
  rw [hg]
  cases w with
  | null => exact absurd rfl hw
  | bool b => rfl
  | num q => rfl
  | str s => rfl
  | arr a => rfl
  | obj o => rfl

theorem dGet_fillFalsy_self (d : RecordDict) (k : String) {v : JValue}
    (hv : pyTruthy v = true) :
    pyTruthyOpt (dGet (fillFalsy d k v) k) = true := by
  unfold fillFalsy
  split
  · rw [dGet_dSet_self]
    exact hv
  · rename_i h
    simpa using h

theorem fillFalsy_of_truthy (d : RecordDict) (k : String) (v : JValue)
    (h : pyTruthyOpt (dGet d k) = true) : fillFalsy d k v = d := by
  unfold fillFalsy
  simp [h]

theorem dGet_fillMissing_self (d : RecordDict) (k : String) (v : JValue) :
    ∃ w, dGet (fillMissing d k v) k = some w := by
  unfold fillMissing
  cases hg : dGet d k with
  | none => exact ⟨v, by rw [dGet_dSet_self]⟩
  | some w => exact ⟨w, hg⟩

theorem fillMissing_of_mem (d : RecordDict) (k : String) (v : JValue)
    {w : JValue} (hg : dGet d k = some w) : fillMissing d k v = d := by
  unfold fillMissing
  rw [hg]

/-- `validate_record` always returns either a record or a warning, never
both and never neither. -/
theorem validate_record_shape (v : JValue) (n : Nat) (p : String) :
    (∃ r, validate_record v n p = (some r, none)) ∨
    (∃ w, validate_record v n p = (none, some w)) := by
  cases v with
  | obj fields =>
    simp only [validate_record]
    split
    · exact Or.inr ⟨_, rfl⟩
    · split
      · exact Or.inr ⟨_, rfl⟩
      · split
        · exact Or.inr ⟨_, rfl⟩
        · exact Or.inl ⟨_, rfl⟩
  | null => exact Or.inr ⟨_, rfl⟩
  | bool b => exact Or.inr ⟨_, rfl⟩
  | num q => exact Or.inr ⟨_, rfl⟩
  | str s => exact Or.inr ⟨_, rfl⟩
  | arr a => exact Or.inr ⟨_, rfl⟩

/-- Normalization is idempotent on its own output. -/
theorem normalizeRecord_idem (fields : RecordDict) :
    normalizeRecord (normalizeRecord fields) = normalizeRecord fields := by
  have htags : ∃ w, dGet (normalizeRecord fields) "tags" = some w ∧ w ≠ .null := by
    unfold normalizeRecord
    rw [dGet_fillMissing_ne _ _ (by decide), dGet_fillFalsy_ne _ _ (by decide),
      dGet_fillNullable_ne _ _ (by decide)]
    exact dGet_fillNullable_self _ _ (by simp)
  have hconf : ∃ w, dGet (normalizeRecord fields) "confidence" = some w ∧ w ≠ .null := by
    unfold normalizeRecord
    rw [dGet_fillMissing_ne _ _ (by decide), dGet_fillFalsy_ne _ _ (by decide)]
    exact dGet_fillNullable_self _ _ (by simp)
  have hsrc : pyTruthyOpt (dGet (normalizeRecord fields) "source") = true := by
    unfold normalizeRecord
    rw [dGet_fillMissing_ne _ _ (by decide)]
    exact dGet_fillFalsy_self _ _ (by simp [pyTruthy])
  have hexp : ∃ w, dGet (normalizeRecord fields) "expires_at" = some w := by
    unfold normalizeRecord
    exact dGet_fillMissing_self _ _ _
  obtain ⟨wt, hwt, hwtn⟩ := htags
  obtain ⟨wc, hwc, hwcn⟩ := hconf
  obtain ⟨we, hwe⟩ := hexp
  conv_lhs => rw [normalizeRecord]
  rw [fillNullable_of_nonnull _ _ _ hwt hwtn, fillNullable_of_nonnull _ _ _ hwc hwcn,
    fillFalsy_of_truthy _ _ _ hsrc, fillMissing_of_mem _ _ _ hwe]

/-- The required fields, the scope and the agent id are untouched by
normalization. -/
theorem dGet_normalizeRecord_required (fields : RecordDict) {k : String}
    (hk : k ∈ REQUIRED_FIELDS ∨ k = "agent_id") :
    dGet (normalizeRecord fields) k = dGet fields k := by
  rcases hk with hk | hk
  · fin_cases hk <;>
      exact dGet_normalizeRecord_ne _ (by decide) (by decide) (by decide) (by decide)
  · subst hk
    exact dGet_normalizeRecord_ne _ (by decide) (by decide) (by decide) (by decide)

/-- `validate_record` is idempotent: re-validating a record it has already
accepted and normalized returns that record unchanged, with no warning, at
any line number and path. -/
theorem validate_record_idem {v : JValue} {n : Nat} {p : String} {r : RecordDict}
    (h : validate_record v n p = (some r, none)) (n₂ : Nat) (p₂ : String) :
    validate_record (.obj r) n₂ p₂ = (some r, none) := by
  cases v with
  | obj fields =>
    rw [validate_record] at h
    split at h
    · simp at h
    · split at h
      · simp at h
      · split at h
        · simp at h
        · rename_i hm hsc hag
          have hr : r = normalizeRecord fields := by
            simpa using h.symm
          subst hr
          rw [validate_record]
          have hflt : (REQUIRED_FIELDS.filter
              (fun f => ¬ pyTruthyOpt (dGet (normalizeRecord fields) f))) =
              (REQUIRED_FIELDS.filter (fun f => ¬ pyTruthyOpt (dGet fields f))) := by
            apply List.filter_congr
            intro f hf
            rw [dGet_normalizeRecord_required fields (Or.inl hf)]
          have hsc₂ : dGet (normalizeRecord fields) "scope" = dGet fields "scope" :=
            dGet_normalizeRecord_required fields (Or.inl (by decide))
          have hai₂ : dGet (normalizeRecord fields) "agent_id" = dGet fields "agent_id" :=
            dGet_normalizeRecord_required fields (Or.inr rfl)
          rw [if_neg, if_neg, if_neg]
          · rw [normalizeRecord_idem]
          · rw [hsc₂, hai₂]
            exact hag
          · rw [hsc₂]
            exact hsc
          · rw [hflt]
            exact hm
  | null => simp [validate_record] at h
  | bool b => simp [validate_record] at h
  | num q => simp [validate_record] at h
  | str s => simp [validate_record] at h
  | arr a => simp [validate_record] at h

/-- Replaying lines that each decode to an already-normalized record yields
exactly those records and no warnings. -/
theorem loadLines_all_valid (path : FsPath) (n : Nat) (rs : List RecordDict)
    (h : ∀ r ∈ rs, ∀ k sp, validate_record (.obj r) k sp = (some r, none)) :
    loadLines path n (rs.map (fun r => JsonLine.ok (.obj r))) = (rs, []) := by
  induction rs generalizing n with
  | nil => rfl
  | cons r rest ih =>
    rw [List.map_cons, loadLines, ih (n + 1) (fun x hx => h x (List.mem_cons_of_mem r hx))]
    dsimp only
    rw [h r (List.mem_cons_self r rest)]

theorem dGet_eq_none_of_not_mem (d : RecordDict) {k : String}
    (h : k ∉ d.map Prod.fst) : dGet d k = none := by
  induction d with
  | nil => rfl
  | cons hd tl ih =>
    obtain ⟨k₁, v₁⟩ := hd
    simp only [List.map_cons, List.mem_cons] at h
    push_neg at h
    rw [dGet, if_neg (Ne.symm h.1), ih h.2]

theorem dSet_eq_append_of_not_mem (d : RecordDict) {k : String} (v : JValue)
    (h : k ∉ d.map Prod.fst) : dSet d k v = d ++ [(k, v)] := by
  induction d with
  | nil => rfl
  | cons hd tl ih =>
    obtain ⟨k₁, v₁⟩ := hd
    simp only [List.map_cons, List.mem_cons] at h
    push_neg at h
    rw [dSet, if_neg (Ne.symm h.1), ih h.2, List.cons_append]

/-- On a record that carries none of the four defaulted keys, normalization
appends exactly the four default bindings, in source order. -/
theorem normalizeRecord_fresh (fields : RecordDict)
    (h₁ : "tags" ∉ fields.map Prod.fst) (h₂ : "confidence" ∉ fields.map Prod.fst)
    (h₃ : "source" ∉ fields.map Prod.fst) (h₄ : "expires_at" ∉ fields.map Prod.fst) :
    normalizeRecord fields = fields ++
      [("tags", .arr []), ("confidence", .num 0.7),
       ("source", .str "unknown"), ("expires_at", .null)] := by
  have e₁ : fillNullable fields "tags" (.arr []) = fields ++ [("tags", .arr [])] := by
    rw [fillNullable, dGet_eq_none_of_not_mem fields h₁,
      dSet_eq_append_of_not_mem fields _ h₁]
  have m₂ : "confidence" ∉ (fields ++ [("tags", JValue.arr [])]).map Prod.fst := by
    simp only [List.map_append, List.mem_append]
    push_neg
    exact ⟨h₂, by simp⟩
  have e₂ : fillNullable (fields ++ [("tags", JValue.arr [])]) "confidence" (.num 0.7) =
      fields ++ [("tags", .arr []), ("confidence", .num 0.7)] := by
    rw [fillNullable, dGet_eq_none_of_not_mem _ m₂, dSet_eq_append_of_not_mem _ _ m₂,
      List.append_assoc]
    rfl
  have m₃ : "source" ∉ (fields ++
      [("tags", JValue.arr []), ("confidence", JValue.num 0.7)]).map Prod.fst := by
    simp only [List.map_append, List.mem_append]
    push_neg
    exact ⟨h₃, by simp⟩
  have e₃ : fillFalsy (fields ++ [("tags", JValue.arr []), ("confidence", JValue.num 0.7)])
      "source" (.str "unknown") =
      fields ++ [("tags", .arr []), ("confidence", .num 0.7), ("source", .str "unknown")] := by
    rw [fillFalsy, if_pos, dSet_eq_append_of_not_mem _ _ m₃, List.append_assoc]
    · rfl
    · rw [dGet_eq_none_of_not_mem _ m₃]
      simp [pyTruthyOpt]
  have m₄ : "expires_at" ∉ (fields ++ [("tags", JValue.arr []),
      ("confidence", JValue.num 0.7), ("source", JValue.str "unknown")]).map Prod.fst := by
    simp only [List.map_append, List.mem_append]
    push_neg
    exact ⟨h₄, by simp⟩
  have e₄ : fillMissing (fields ++ [("tags", JValue.arr []), ("confidence", JValue.num 0.7),
      ("source", JValue.str "unknown")]) "expires_at" .null =
      fields ++ [("tags", .arr []), ("confidence", .num 0.7),
        ("source", .str "unknown"), ("expires_at", .null)] := by
    rw [fillMissing, dGet_eq_none_of_not_mem _ m₄, dSet_eq_append_of_not_mem _ _ m₄,
      List.append_assoc]
    rfl
  rw [normalizeRecord, e₁, e₂, e₃, e₄]

theorem linesOf_line_append {body : List Char} (rest : List Char)
    (h : '\n' ∉ body) : linesOf (body ++ '\n' :: rest) = body :: linesOf rest := by
  induction body with
  | nil => simp [linesOf]
  | cons c b ih =>
    simp only [List.mem_cons] at h
    push_neg at h
    rw [List.cons_append, linesOf, if_neg (Ne.symm h.1), ih h.2]

/-- A concatenation of newline-terminated, newline-free bodies splits back
into exactly those bodies. -/
theorem linesOf_flatMap (bodies : List (List Char))
    (h : ∀ b ∈ bodies, '\n' ∉ b) :
    linesOf (bodies.flatMap (fun b => b ++ ['\n'])) = bodies := by
  induction bodies with
  | nil => rfl
  | cons b rest ih =>
    rw [List.flatMap_cons, List.append_assoc, List.singleton_append,
      linesOf_line_append _ (h b (List.mem_cons_self b rest)),
      ih (fun x hx => h x (List.mem_cons_of_mem b hx))]

/- ----------------------------------------------------------------------
Claim theorems
---------------------------------------------------------------------- -/

/-- C7: a record carrying truthy values for all six required fields, a
scope among the four known layers, a truthy `agent_id` whenever the scope is
agent-scoped, and none of the four defaulted keys, validates successfully
into a copy with `tags = []`, `confidence = 0.7`, `source = "unknown"` and
`expires_at = null` appended; and `validate_record` is idempotent — applied
to any record it has already normalized it returns that record unchanged
with no warning. -/
theorem c7_validate_minimal_and_idempotent :
    (∀ (fields : RecordDict),
      (∀ f ∈ REQUIRED_FIELDS, pyTruthyOpt (dGet fields f) = true) →
      strMem (dGet fields "scope") ALLOWED_SCOPES = true →
      (strMem (dGet fields "scope") AGENT_SCOPES = true →
        pyTruthyOpt (dGet fields "agent_id") = true) →
      "tags" ∉ fields.map Prod.fst → "confidence" ∉ fields.map Prod.fst →
      "source" ∉ fields.map Prod.fst → "expires_at" ∉ fields.map Prod.fst →
      ∀ n p, validate_record (.obj fields) n p =
        (some (fields ++ [("tags", .arr []), ("confidence", .num 0.7),
          ("source", .str "unknown"), ("expires_at", .null)]), none)) ∧
    (∀ (v : JValue) (n : Nat) (p : String) (r : RecordDict),
      validate_record v n p = (some r, none) →
      ∀ n₂ p₂, validate_record (.obj r) n₂ p₂ = (some r, none)) := by
  constructor
  · intro fields h₁ hsc hag ht hc hs he n p
    rw [validate_record]
    have hflt : (REQUIRED_FIELDS.filter (fun f => ¬ pyTruthyOpt (dGet fields f))) = [] := by
      refine List.filter_eq_nil_iff.mpr ?_
      intro f hf
      simp [h₁ f hf]
    rw [if_neg, if_neg, if_neg]
    · rw [normalizeRecord_fresh fields ht hc hs he]
    · intro hcontra
      rcases hcontra with ⟨hmem, hfalse⟩
      exact hfalse (hag hmem)
    · rw [hsc]
      simp
    · rw [hflt]
      simp
  · intro v n p r h n₂ p₂
    exact validate_record_idem h n₂ p₂

/-- Witness for C7 at the minimal six-field record of the spec. -/
theorem c7_witness :
    validate_record (.obj [("id", .str "r1"), ("created_at", .str "t"),
        ("scope", .str "project_agent"), ("entry_type", .str "note"),
        ("content", .str "hello"), ("project_id", .str "p"),
        ("agent_id", .str "a")]) 0 "mempath" =
      (some ([("id", .str "r1"), ("created_at", .str "t"),
        ("scope", .str "project_agent"), ("entry_type", .str "note"),
        ("content", .str "hello"), ("project_id", .str "p"),
        ("agent_id", .str "a")] ++
        [("tags", .arr []), ("confidence", .num 0.7),
         ("source", .str "unknown"), ("expires_at", .null)]), none) ∧
    validate_record (.obj ([("id", .str "r1"), ("created_at", .str "t"),
        ("scope", .str "project_agent"), ("entry_type", .str "note"),
        ("content", .str "hello"), ("project_id", .str "p"),
        ("agent_id", .str "a")] ++
        [("tags", .arr []), ("confidence", .num 0.7),
         ("source", .str "unknown"), ("expires_at", .null)])) 7 "other" =
      (some ([("id", .str "r1"), ("created_at", .str "t"),
        ("scope", .str "project_agent"), ("entry_type", .str "note"),
        ("content", .str "hello"), ("project_id", .str "p"),
        ("agent_id", .str "a")] ++
        [("tags", .arr []), ("confidence", .num 0.7),
         ("source", .str "unknown"), ("expires_at", .null)]), none) := by
  have hmin := c7_validate_minimal_and_idempotent.1
    [("id", .str "r1"), ("created_at", .str "t"),
     ("scope", .str "project_agent"), ("entry_type", .str "note"),
     ("content", .str "hello"), ("project_id", .str "p"), ("agent_id", .str "a")]
    (by decide) (by decide) (by decide) (by decide) (by decide) (by decide) (by decide) 0 "mempath"
  exact ⟨hmin, c7_validate_minimal_and_idempotent.2 _ 0 "mempath" _ hmin 7 "other"⟩

theorem planLayers_ok (paths : List (String × FsPath)) (ls : List String)
    (h : ∀ l ∈ ls, l ∈ ALLOWED_LAYERS) : ∃ plan, planLayers paths ls = .ok plan := by
  induction ls with
  | nil => exact ⟨[], rfl⟩
  | cons l rest ih =>
    obtain ⟨plan, hplan⟩ := ih (fun x hx => h x (List.mem_cons_of_mem l hx))
    refine ⟨{ layer := l, source_layer := l,
              path := (pathsGet paths l).getD [] } :: plan, ?_⟩
    rw [planLayers, if_pos (h l (List.mem_cons_self l rest)), hplan]

/-- C10: loading a path whose file does not exist yields no records and no
warnings without raising; consequently `get_all_records` on a store none of
whose layer files exist returns the empty sequence with no error. -/
theorem c10_missing_files_read_empty (st : FsState) (policy : MemoryPolicy)
    (agent_id : String) (paths : List (String × FsPath))
    (hempty : ∀ p, fsRead st.files p = none)
    (hlayers : ∀ l ∈ policy.read_layers, l ∈ ALLOWED_LAYERS)
    (hres : resolve_all_layer_paths policy agent_id = .ok paths) :
    (∀ p, load_jsonl_records st p = ([], [])) ∧
    get_all_records policy agent_id st = .ok [] := by
  have hload : ∀ p, load_jsonl_records st p = ([], []) := by
    intro p
    rw [load_jsonl_records, hempty p]
  refine ⟨hload, ?_⟩
  obtain ⟨plan, hplan⟩ := planLayers_ok paths policy.read_layers hlayers
  rw [get_all_records, build_retrieval_plan, hres]
  dsimp only
  rw [hplan]
  dsimp only
  congr 1
  refine List.flatMap_eq_nil_iff.mpr ?_
  intro entry _
  rw [hload entry.path]
  rfl

/-- Witness for C10 on the empty filesystem with the default policy. -/
theorem c10_witness :
    (∀ p, load_jsonl_records FsState.empty p = ([], [])) ∧
    get_all_records { project_root := some ["proj"] } "a" FsState.empty = .ok [] :=
  c10_missing_files_read_empty FsState.empty { project_root := some ["proj"] } "a"
    [("project_agent", ["proj", ".agents", "memory", "agents", "a", "memory.jsonl"]),
     ("project_global", ["proj", ".agents", "memory", "global", "memory.jsonl"]),
     ("user_agent", ["home", "user", ".agents", "memory", "agents", "a", "memory.jsonl"]),
     ("user_global", ["home", "user", ".agents", "memory", "global", "memory.jsonl"])]
    (fun _ => rfl) (by decide) rfl

/-- Counterexample to C2 as stated: an append that fails validation (the
empty record is missing every required field) raises `ValueError`, yet the
filesystem is not unchanged — `append_entry` has already created the layer's
parent directories before `_prepare_record` runs. -/
theorem c2_counterexample :
    (append_entry cexCtx FsState.empty "project_agent" []).1 =
      .error (.valueError "Invalid record for layer 'project_agent'.") ∧
    (append_entry cexCtx FsState.empty "project_agent" []).2.dirs ≠ FsState.empty.dirs := by
  exact ⟨rfl, by decide⟩

/-- C2 amended: a failing `append_entry` leaves every layer file and every
lock sentinel exactly as it was — only parent directories may have been
created (by the `mkdir(parents=True)` that precedes the checks). -/
theorem c2_append_error_frame (ctx : StoreCtx) (st : FsState) (layer : String)
    (record : RecordDict) (e : MemError) (st₂ : FsState)
    (h : append_entry ctx st layer record = (.error e, st₂)) :
    st₂.files = st.files ∧ st₂.locks = st.locks := by
  rw [append_entry] at h
  split at h
  · cases h
    exact ⟨rfl, rfl⟩
  · split at h
    · cases h
      exact ⟨rfl, rfl⟩
    · dsimp only at h
      split at h
      · cases h
        exact ⟨rfl, rfl⟩
      · simp at h

/-- Witness for the amended C2 at a concrete failing append (unknown
layer). -/
theorem c2_witness :
    (append_entry cexCtx FsState.empty "nope" []).2.files = FsState.empty.files ∧
    (append_entry cexCtx FsState.empty "nope" []).2.locks = FsState.empty.locks :=
  c2_append_error_frame cexCtx FsState.empty "nope" []
    (.valueError "Unknown layer: nope") _ rfl

/-- Counterexample to C3 as stated: under the default policy
(`allow_user_global_write = false`, `write_layers = ["project_agent"]`),
appending to `user_global` fails with `ValueError` from the write-layers
check — not with `PermissionError` — because `_prepare_record` tests
membership in `write_layers` before consulting `should_allow_layer_write`. -/
theorem c3_counterexample :
    (append_entry cexCtx FsState.empty "user_global" []).1 =
      .error (.valueError "Layer 'user_global' is not enabled for writes.") ∧
    ∀ msg, (append_entry cexCtx FsState.empty "user_global" []).1 ≠
      .error (.permissionError msg) := by
  refine ⟨rfl, ?_⟩
  intro msg h
  rw [show (append_entry cexCtx FsState.empty "user_global" []).1 =
    .error (.valueError "Layer 'user_global' is not enabled for writes.") from rfl] at h
  simp at h

/-- C3 amended: with `allow_user_global_write = false`, appending to
`user_global` always fails — with `PermissionError` when the layer is listed
in `write_layers`, and with `ValueError` (layer not enabled for writes)
when it is not. -/
theorem c3_user_global_append_always_fails (policy : MemoryPolicy) (agent : String)
    (ctx : StoreCtx) (st : FsState) (record : RecordDict)
    (hallow : policy.allow_user_global_write = false)
    (hmk : mkStore policy agent = .ok ctx) :
    ∃ e, (append_entry ctx st "user_global" record).1 = .error e ∧
      (("user_global" ∈ policy.write_layers → ∃ m, e = .permissionError m) ∧
       ("user_global" ∉ policy.write_layers → ∃ m, e = .valueError m)) := by
  have hctx : ctx.policy = policy ∧ ctx.agent_id = agent ∧
      resolve_all_layer_paths policy agent = .ok ctx.paths := by
    rw [mkStore] at hmk
    split at hmk
    · cases hmk
    · cases hres : resolve_all_layer_paths policy agent with
      | error e =>
        rw [hres] at hmk
        cases hmk
      | ok paths =>
        rw [hres] at hmk
        cases hmk
        exact ⟨rfl, rfl, rfl⟩
  obtain ⟨hpol, hagent, hres⟩ := hctx
  have hpaths : ∃ p, pathsGet ctx.paths "user_global" = some p := by
    rw [resolve_all_layer_paths] at hres
    split at hres
    · cases hres
    · split at hres
      · cases hres
      · injection hres with h₄
        rw [← h₄, pathsGet, if_neg (by decide), pathsGet, if_neg (by decide),
          pathsGet, if_neg (by decide), pathsGet, if_pos rfl]
        exact ⟨_, rfl⟩
  obtain ⟨p, hp⟩ := hpaths
  rw [append_entry, hp]
  dsimp only
  rw [prepare_record, hpol]
  by_cases hin : "user_global" ∈ policy.write_layers
  · rw [if_neg (by simpa using hin)]
    rw [if_pos]
    · refine ⟨.permissionError ("Writes to layer 'user_global' are blocked by policy."), ?_, ?_, ?_⟩
      · rfl
      · intro _
        exact ⟨_, rfl⟩
      · intro hcontra
        exact absurd hin hcontra
    · rw [should_allow_layer_write, hallow]
      simp
  · rw [if_pos hin]
    refine ⟨.valueError ("Layer 'user_global' is not enabled for writes."), rfl, ?_, ?_⟩
    · intro hcontra
      exact absurd hcontra hin
    · intro _
      exact ⟨_, rfl⟩

/-- Witness for the amended C3 with `user_global` listed in `write_layers`
(the policy dataclass can be constructed in that shape directly). -/
theorem c3_witness :
    ∃ e, (append_entry
        (match mkStore { write_layers := ["user_global"], project_root := some ["proj"] } "a" with
         | .ok ctx => ctx
         | .error _ => { policy := {}, agent_id := "a", paths := [] })
        FsState.empty "user_global" []).1 = .error e ∧
      (("user_global" ∈
          ({ write_layers := ["user_global"], project_root := some ["proj"] } : MemoryPolicy).write_layers →
          ∃ m, e = .permissionError m) ∧
       ("user_global" ∉
          ({ write_layers := ["user_global"], project_root := some ["proj"] } : MemoryPolicy).write_layers →
          ∃ m, e = .valueError m)) :=
  c3_user_global_append_always_fails
    { write_layers := ["user_global"], project_root := some ["proj"] } "a" _
    FsState.empty [] rfl rfl

/-- C4: appending `{content: "my api_key: sk-12345", tags:
["api_key:secret"]}` to `project_global` under redaction rule `["api_key"]`
succeeds and stores `content = "my api_key: [REDACTED]"` and `tags =
["api_key:[REDACTED]"]`; the literal `sk-12345` occurs nowhere in the stored
record. -/
theorem c4_redaction_on_append :
    (append_entry c4Ctx FsState.empty "project_global" c4Record).1 = .ok "r1" ∧
    fsRead (append_entry c4Ctx FsState.empty "project_global" c4Record).2.files
      ["proj", ".agents", "memory", "global", "memory.jsonl"] =
      some [JsonLine.ok (.obj c4Stored)] ∧
    dGet c4Stored "content" = some (.str "my api_key: [REDACTED]") ∧
    dGet c4Stored "tags" = some (.arr [.str "api_key:[REDACTED]"]) ∧
    jvalueHasSub 10 "sk-12345".data (.obj c4Stored) = false := by
  refine ⟨rfl, rfl, rfl, rfl, by decide⟩

/-- Counterexample to C5 as stated: the distinct non-empty agent identities
`"x"` and `"x/"` resolve to identical layer paths (pathlib collapses the
trailing slash), so a record appended under one is visible under the other. -/
theorem c5_counterexample :
    resolve_all_layer_paths cexPolicy "x" = resolve_all_layer_paths cexPolicy "x/" ∧
    ("x" : String) ≠ "x/" := by
  exact ⟨rfl, by decide⟩

theorem splitSlashAux_no_slash (cs : List Char) (acc : List Char)
    (h : '/' ∉ cs) : splitSlashAux acc cs = [acc.reverse ++ cs] := by
  induction cs generalizing acc with
  | nil => simp [splitSlashAux]
  | cons c rest ih =>
    simp only [List.mem_cons] at h
    push_neg at h
    rw [splitSlashAux, if_neg (Ne.symm h.1), ih (c :: acc) h.2]
    simp

theorem pathJoin_plain (p : FsPath) (s : String) (h : plainComponent s) :
    pathJoin p s = p ++ [s] := by
  obtain ⟨hne, hslash, hdot, _⟩ := h
  have hs : s ≠ "" := by
    intro e
    rw [e] at hne
    exact hne rfl
  have hsplit : ((splitSlashAux [] s.data).map String.mk).filter
      (fun seg => seg ≠ "" && seg ≠ ".") = [s] := by
    rw [splitSlashAux_no_slash s.data [] hslash]
    simp only [List.reverse_nil, List.nil_append, List.map_cons, List.map_nil]
    rw [show String.mk s.data = s from rfl]
    simp [hs, hdot]
  rw [pathJoin]
  rw [hsplit]
  cases hd : s.data with
  | nil => exact absurd hd hne
  | cons c rest =>
    have hc : c ≠ '/' := by
      intro e
      rw [hd, e] at hslash
      exact hslash (List.mem_cons_self _ _)
    split
    · rename_i heq
      injection heq with h₁ h₂
      exact absurd h₁ hc
    · rfl

theorem resolveSegs_append (p q : FsPath) (h : ∀ x ∈ q, x ≠ "..") :
    resolveSegs (p ++ q) = resolveSegs p ++ q := by
  rw [resolveSegs, resolveSegs, List.foldl_append]
  generalize List.foldl _ [] p = acc
  induction q generalizing acc with
  | nil => simp
  | cons x rest ih =>
    rw [List.foldl_cons, if_neg (h x (List.mem_cons_self x rest)),
      ih (fun y hy => h y (List.mem_cons_of_mem x hy))]
    simp

/-- C5 amended: for agent identities that are distinct plain path
components, the resolved `project_agent` paths are distinct, while the
resolved `project_global` path is identical for both agents. -/
theorem c5_agent_isolation_for_plain_ids (policy : MemoryPolicy) (proj : FsPath)
    (a b : String) (hroot : policy.project_root = some proj)
    (ha : plainComponent a) (hb : plainComponent b) (hab : a ≠ b) :
    ∃ pathsA pathsB, resolve_all_layer_paths policy a = .ok pathsA ∧
      resolve_all_layer_paths policy b = .ok pathsB ∧
      pathsGet pathsA "project_agent" ≠ pathsGet pathsB "project_agent" ∧
      pathsGet pathsA "project_global" = pathsGet pathsB "project_global" := by
  have hane : a ≠ "" := by
    intro e
    exact ha.1 (by rw [e])
  have hbne : b ≠ "" := by
    intro e
    exact hb.1 (by rw [e])
  have hmem : policy.project_memory_root = some (pathJoin (pathJoin proj ".agents") "memory") := by
    rw [MemoryPolicy.project_memory_root, hroot]
    rfl
  have hsuffix : ∀ (x : String), x ≠ ".." →
      ∀ xs ∈ ["agents", x, "memory.jsonl"], xs ≠ ".." := by
    intro x hx xs hxs
    simp only [List.mem_cons, List.not_mem_nil, or_false] at hxs
    rcases hxs with h | h | h
    · subst h
      decide
    · subst h
      exact hx
    · subst h
      decide
  have hshape : ∀ x : String, plainComponent x →
      memory_file (pathJoin (pathJoin (pathJoin (pathJoin proj ".agents") "memory") "agents") x) =
        resolveSegs (pathJoin (pathJoin proj ".agents") "memory") ++
          ["agents", x, "memory.jsonl"] := by
    intro x hx
    rw [pathJoin_plain _ "agents" (by decide), pathJoin_plain _ x hx, memory_file,
      pathJoin_plain _ "memory.jsonl" (by decide)]
    simp only [List.append_assoc]
    exact resolveSegs_append _ _
      (fun xs hxs => hsuffix x hx.2.2.2 xs (by simpa using hxs))
  refine ⟨[("project_agent", memory_file (pathJoin (pathJoin (pathJoin (pathJoin proj
        ".agents") "memory") "agents") a)),
      ("project_global", memory_file (pathJoin (pathJoin (pathJoin proj ".agents")
        "memory") "global")),
      ("user_agent", memory_file (pathJoin (pathJoin policy.user_memory_root "agents") a)),
      ("user_global", memory_file (pathJoin policy.user_memory_root "global"))],
    [("project_agent", memory_file (pathJoin (pathJoin (pathJoin (pathJoin proj
        ".agents") "memory") "agents") b)),
      ("project_global", memory_file (pathJoin (pathJoin (pathJoin proj ".agents")
        "memory") "global")),
      ("user_agent", memory_file (pathJoin (pathJoin policy.user_memory_root "agents") b)),
      ("user_global", memory_file (pathJoin policy.user_memory_root "global"))],
    ?_, ?_, ?_, ?_⟩
  · rw [resolve_all_layer_paths, if_neg hane, hmem]
  · rw [resolve_all_layer_paths, if_neg hbne, hmem]
  · intro h
    have h₂ : some (memory_file (pathJoin (pathJoin (pathJoin (pathJoin proj ".agents")
          "memory") "agents") a)) =
        some (memory_file (pathJoin (pathJoin (pathJoin (pathJoin proj ".agents")
          "memory") "agents") b)) := h
    rw [hshape a ha, hshape b hb] at h₂
    injection h₂ with h₃
    have h₄ := List.append_cancel_left h₃
    simp only [List.cons.injEq] at h₄
    exact hab h₄.2.1
  · rfl

/-- Witness for the amended C5 with two ordinary agent identities. -/
theorem c5_witness :
    ∃ pathsA pathsB, resolve_all_layer_paths cexPolicy "alice" = .ok pathsA ∧
      resolve_all_layer_paths cexPolicy "bob" = .ok pathsB ∧
      pathsGet pathsA "project_agent" ≠ pathsGet pathsB "project_agent" ∧
      pathsGet pathsA "project_global" = pathsGet pathsB "project_global" :=
  c5_agent_isolation_for_plain_ids cexPolicy ["proj"] "alice" "bob" rfl
    (by decide) (by decide) (by decide)

/-- C9: the write path never mutates the caller's record object — the heap
cell passed to `append_entryH` holds the same dict after the call, whether
the append succeeds or fails; all stamping, defaulting, redaction and
normalization happen on freshly allocated copies. -/
theorem c9_append_preserves_caller_record (ctx : StoreCtx) (layer : String)
    (h : DictHeap) (ref : Nat) (href : ref < h.length) :
    (append_entryH ctx layer h ref).2[ref]? = h[ref]? := by
  have hne : h.length ≠ ref := Nat.ne_of_gt href
  rw [append_entryH]
  split
  · rfl
  · rw [prepare_recordH]
    split
    · rfl
    · split
      · rfl
      · dsimp only
        simp only [hAlloc]
        split <;> split <;> (try split) <;>
          first
          | rfl
          | (simp only [hMod, List.getElem?_set_ne hne]
             exact List.getElem?_append_left href)
          | (rw [List.getElem?_append_left (by
                simp only [hMod, List.length_set, List.length_append,
                  List.length_cons, List.length_nil]
                omega)]
             simp only [hMod, List.getElem?_set_ne hne]
             exact List.getElem?_append_left href)

/-- Witness for C9 at a concrete one-record heap. -/
theorem c9_witness :
    (append_entryH cexCtx "project_agent" [[("id", JValue.str "x")]] 0).2[0]? =
      ([[("id", JValue.str "x")]] : DictHeap)[0]? :=
  c9_append_preserves_caller_record cexCtx "project_agent"
    [[("id", JValue.str "x")]] 0 (by decide)

/-- C8: the acquisition loop of `_file_lock` always terminates — within
`⌈timeout / poll⌉ + 1` attempts it either succeeds in creating the lock
sentinel or raises `TimeoutError`, provided each failed attempt sleeps at
least the (positive) poll interval and the clock never runs backwards
across the initial read. -/
theorem c8_lock_loop_terminates (oracle : LockOracle) (times : Nat → ℚ)
    (start timeout poll : ℚ) (hpoll : 0 < poll) (hstart : start ≤ times 0)
    (hstep : ∀ k, times k + poll ≤ times (k + 1)) :
    ∃ k, k ≤ ⌈timeout / poll⌉₊ ∧ fileLockExit oracle times start timeout k := by
  by_cases hsucc : ∃ k, k ≤ ⌈timeout / poll⌉₊ ∧ oracle k = true
  · obtain ⟨k, hk, hok⟩ := hsucc
    exact ⟨k, hk, Or.inl hok⟩
  · push_neg at hsucc
    set K := ⌈timeout / poll⌉₊ with hK
    have hgrow : ∀ k : Nat, times 0 + k * poll ≤ times k := by
      intro k
      induction k with
      | zero => simp
      | succ n ih =>
        have h₂ := hstep n
        push_cast
        calc times 0 + (n + 1) * poll = (times 0 + n * poll) + poll := by ring
          _ ≤ times n + poll := by linarith
          _ ≤ times (n + 1) := h₂
    have hbound : timeout ≤ (K : ℚ) * poll := by
      rcases le_or_lt timeout 0 with h₀ | h₀
      · have : (0 : ℚ) ≤ (K : ℚ) * poll := by positivity
        linarith
      · have h₁ : timeout / poll ≤ (K : ℚ) := Nat.le_ceil _
        calc timeout = (timeout / poll) * poll := by
              field_simp
          _ ≤ (K : ℚ) * poll := by
              exact mul_le_mul_of_nonneg_right h₁ (le_of_lt hpoll)
    refine ⟨K, le_refl K, Or.inr ⟨Bool.eq_false_iff.mpr (hsucc K (le_refl K)), ?_⟩⟩
    have h₃ := hgrow K
    linarith

/-- Witness for C8: a permanently held lock sentinel with unit poll interval
and a three-second timeout. -/
theorem c8_witness :
    ∃ k, k ≤ ⌈(3 : ℚ) / 1⌉₊ ∧
      fileLockExit (fun _ => false) (fun k => (k : ℚ)) 0 3 k :=
  c8_lock_loop_terminates (fun _ => false) (fun k => (k : ℚ)) 0 3 1
    (by norm_num) (by norm_num)
    (fun k => by push_cast; linarith)

theorem idIs_tagSource (x layer : String) (path : FsPath) (r : RecordDict) :
    idIs x (tagSource layer path r) = idIs x r := by
  rw [idIs, idIs, tagSource, dGet_dSet_ne _ _ (by decide), dGet_dSet_ne _ _ (by decide)]

theorem dGet_tagSource_layer (layer : String) (path : FsPath) (r : RecordDict) :
    dGet (tagSource layer path r) "source_layer" = some (.str layer) := by
  rw [tagSource, dGet_dSet_ne _ _ (by decide), dGet_dSet_self]

/-- C1: with `read_layers = [project_agent, project_global]`,
`get_all_records` returns every `project_agent` record (newest first)
before every `project_global` record (newest first), each tagged with its
source layer and path; consequently, whenever the `project_agent` layer
holds any record with id `x`, the first record with id `x` in the returned
sequence is a `project_agent` record — in particular the layer's newest
such record, ahead of any same-id record in `project_global`. -/
theorem c1_read_precedence (policy : MemoryPolicy) (agent : String) (st : FsState)
    (paths : List (String × FsPath)) (paPath pgPath : FsPath)
    (hread : policy.read_layers = ["project_agent", "project_global"])
    (hres : resolve_all_layer_paths policy agent = .ok paths)
    (hpa : pathsGet paths "project_agent" = some paPath)
    (hpg : pathsGet paths "project_global" = some pgPath) :
    get_all_records policy agent st =
      .ok ((load_jsonl_records st paPath).1.reverse.map (tagSource "project_agent" paPath) ++
           (load_jsonl_records st pgPath).1.reverse.map (tagSource "project_global" pgPath)) ∧
    ∀ x, (∃ r ∈ (load_jsonl_records st paPath).1, idIs x r = true) →
      ∃ r₀, (load_jsonl_records st paPath).1.reverse.find? (idIs x) = some r₀ ∧
        ((load_jsonl_records st paPath).1.reverse.map (tagSource "project_agent" paPath) ++
         (load_jsonl_records st pgPath).1.reverse.map (tagSource "project_global" pgPath)).find?
            (idIs x) = some (tagSource "project_agent" paPath r₀) ∧
        dGet (tagSource "project_agent" paPath r₀) "source_layer" =
          some (.str "project_agent") := by
  constructor
  · rw [get_all_records, build_retrieval_plan, hres]
    dsimp only
    rw [hread, planLayers, if_pos (by decide), planLayers, if_pos (by decide), planLayers,
      hpa, hpg]
    dsimp only [Option.getD]
    rw [List.flatMap_cons, List.flatMap_cons, List.flatMap_nil, List.append_nil]
  · intro x hx
    have hx₂ : ∃ r ∈ (load_jsonl_records st paPath).1.reverse, idIs x r = true := by
      obtain ⟨r, hr, hid⟩ := hx
      exact ⟨r, List.mem_reverse.mpr hr, hid⟩
    have hsome : ((load_jsonl_records st paPath).1.reverse.find? (idIs x)).isSome := by
      rw [List.find?_isSome]
      exact hx₂
    obtain ⟨r₀, hr₀⟩ := Option.isSome_iff_exists.mp hsome
    refine ⟨r₀, hr₀, ?_, dGet_tagSource_layer _ _ _⟩
    rw [List.find?_append, List.find?_map]
    have hcomp : (idIs x ∘ tagSource "project_agent" paPath) = idIs x := by
      funext r
      exact idIs_tagSource x "project_agent" paPath r
    rw [hcomp, hr₀]
    rfl

/-- Witness for C1 at that concrete store. -/
theorem c1_witness :
    get_all_records cexPolicy "a" c1St =
      .ok ((load_jsonl_records c1St
            ["proj", ".agents", "memory", "agents", "a", "memory.jsonl"]).1.reverse.map
            (tagSource "project_agent"
              ["proj", ".agents", "memory", "agents", "a", "memory.jsonl"]) ++
           (load_jsonl_records c1St
            ["proj", ".agents", "memory", "global", "memory.jsonl"]).1.reverse.map
            (tagSource "project_global"
              ["proj", ".agents", "memory", "global", "memory.jsonl"])) ∧
    ∀ x, (∃ r ∈ (load_jsonl_records c1St
          ["proj", ".agents", "memory", "agents", "a", "memory.jsonl"]).1, idIs x r = true) →
      ∃ r₀, (load_jsonl_records c1St
            ["proj", ".agents", "memory", "agents", "a", "memory.jsonl"]).1.reverse.find?
              (idIs x) = some r₀ ∧
        ((load_jsonl_records c1St
            ["proj", ".agents", "memory", "agents", "a", "memory.jsonl"]).1.reverse.map
            (tagSource "project_agent"
              ["proj", ".agents", "memory", "agents", "a", "memory.jsonl"]) ++
         (load_jsonl_records c1St
            ["proj", ".agents", "memory", "global", "memory.jsonl"]).1.reverse.map
            (tagSource "project_global"
              ["proj", ".agents", "memory", "global", "memory.jsonl"])).find? (idIs x) =
          some (tagSource "project_agent"
            ["proj", ".agents", "memory", "agents", "a", "memory.jsonl"] r₀) ∧
        dGet (tagSource "project_agent"
            ["proj", ".agents", "memory", "agents", "a", "memory.jsonl"] r₀)
          "source_layer" = some (.str "project_agent") :=
  c1_read_precedence cexPolicy "a" c1St
    [("project_agent", ["proj", ".agents", "memory", "agents", "a", "memory.jsonl"]),
     ("project_global", ["proj", ".agents", "memory", "global", "memory.jsonl"]),
     ("user_agent", ["home", "user", ".agents", "memory", "agents", "a", "memory.jsonl"]),
     ("user_global", ["home", "user", ".agents", "memory", "global", "memory.jsonl"])]
    ["proj", ".agents", "memory", "agents", "a", "memory.jsonl"]
    ["proj", ".agents", "memory", "global", "memory.jsonl"]
    rfl rfl rfl rfl

/-- C6: N concurrent writers, each appending M records with pairwise
distinct ids to one shared layer (each record already validated, each
serialized by `json.dumps` to one newline-free line that `json.loads`
decodes back).  After any completed interleaving, the shared file splits
into exactly N×M complete lines — the N×M payloads in some order, none
lost, truncated or interleaved — and replaying them through the schema
loader yields the N×M records with distinct ids and zero warnings. -/
theorem c6_concurrent_appends (N M : Nat) (recs : Nat → Nat → RecordDict)
    (body : Nat → Nat → List Char) (decode : List Char → Option JValue)
    (path : FsPath) (s : CState Char)
    (hnl : ∀ i j, i < N → j < M → '\n' ∉ body i j)
    (hval : ∀ i j, i < N → j < M → ∀ n sp,
      validate_record (.obj (recs i j)) n sp = (some (recs i j), none))
    (hdec : ∀ i j, i < N → j < M → decode (body i j) = some (.obj (recs i j)))
    (hids : ∀ i j i₂ j₂, i < N → j < M → i₂ < N → j₂ < M →
      dGet (recs i j) "id" = dGet (recs i₂ j₂) "id" → i = i₂ ∧ j = j₂)
    (hreach : CReach N M (fun i j => body i j ++ ['\n']) s)
    (hcomp : CComplete N M s) :
    ∃ done : List (Nat × Nat), done.Perm (allPairs N M) ∧
      linesOf s.file = done.map (fun p => body p.1 p.2) ∧
      (linesOf s.file).length = N * M ∧
      loadLines path 1 ((linesOf s.file).map (fun l =>
        match decode l with
        | some v => JsonLine.ok v
        | none => JsonLine.bad "undecodable")) =
        (done.map (fun p => recs p.1 p.2), []) ∧
      (done.map (fun p => recs p.1 p.2)).Pairwise
        (fun r₁ r₂ => dGet r₁ "id" ≠ dGet r₂ "id") := by
  obtain ⟨done, hperm, hfile⟩ := file_is_permuted_payloads N M _ s hreach hcomp
  have hb : ∀ p ∈ done, p.1 < N ∧ p.2 < M := by
    intro p hp
    exact (mem_allPairs N M p).1 (hperm.subset hp)
  have hlines : linesOf s.file = done.map (fun p => body p.1 p.2) := by
    rw [hfile, show (done.flatMap fun p => body p.1 p.2 ++ ['\n']) =
      (done.map (fun p => body p.1 p.2)).flatMap (fun b => b ++ ['\n']) from
      (List.flatMap_map (fun p => body p.1 p.2) (fun b => b ++ ['\n']) done).symm]
    refine linesOf_flatMap _ ?_
    intro b hbm
    obtain ⟨p, hp, rfl⟩ := List.mem_map.mp hbm
    exact hnl p.1 p.2 (hb p hp).1 (hb p hp).2
  have hlen : (linesOf s.file).length = N * M := by
    rw [hlines, List.length_map, hperm.length_eq, allPairs_eq_product,
      show (List.range N).product (List.range M) = (List.range N) ×ˢ (List.range M) from rfl,
      List.length_product, List.length_range, List.length_range]
  refine ⟨done, hperm, hlines, hlen, ?_, ?_⟩
  · rw [hlines, List.map_map]
    have hmaps : done.map ((fun l => match decode l with
        | some v => JsonLine.ok v
        | none => JsonLine.bad "undecodable") ∘ (fun p => body p.1 p.2)) =
        (done.map (fun p => recs p.1 p.2)).map (fun r => JsonLine.ok (.obj r)) := by
      rw [List.map_map]
      refine List.map_eq_map_iff.mpr ?_
      intro p hp
      simp only [Function.comp]
      rw [hdec p.1 p.2 (hb p hp).1 (hb p hp).2]
    rw [hmaps]
    refine loadLines_all_valid path 1 (done.map (fun p => recs p.1 p.2)) ?_
    intro r hr k sp
    obtain ⟨p, hp, rfl⟩ := List.mem_map.mp hr
    exact hval p.1 p.2 (hb p hp).1 (hb p hp).2 k sp
  · have hnd : done.Nodup := hperm.symm.nodup (allPairs_nodup N M)
    rw [List.pairwise_map]
    refine List.Pairwise.imp_of_mem ?_ hnd
    intro p q hpm hqm hne hcontra
    obtain ⟨h₁, h₂⟩ := hids p.1 p.2 q.1 q.2 (hb p hpm).1 (hb p hpm).2
      (hb q hqm).1 (hb q hqm).2 hcontra
    exact hne (Prod.ext h₁ h₂)

/-- Witness for C6: one writer, one append, over the four-step trace
acquire / write / write / release. -/
theorem c6_witness :
    ∃ done : List (Nat × Nat), done.Perm (allPairs 1 1) ∧
      linesOf c6Final.file = done.map (fun p => c6Body p.1 p.2) ∧
      (linesOf c6Final.file).length = 1 * 1 ∧
      loadLines [] 1 ((linesOf c6Final.file).map (fun l =>
        match c6Decode l with
        | some v => JsonLine.ok v
        | none => JsonLine.bad "undecodable")) =
        (done.map (fun _ => c6Rec), []) ∧
      (done.map (fun _ => c6Rec)).Pairwise
        (fun r₁ r₂ => dGet r₁ "id" ≠ dGet r₂ "id") := by
  have h1 : CStep 1 1 (fun i j => c6Body i j ++ ['\n']) (cInit Char) c6S1 :=
    CStep.acquire Nat.one_pos rfl Nat.one_pos rfl
  have h2 : CStep 1 1 (fun i j => c6Body i j ++ ['\n']) c6S1 c6S2 :=
    CStep.write Nat.one_pos rfl
  have h3 : CStep 1 1 (fun i j => c6Body i j ++ ['\n']) c6S2 c6S3 :=
    CStep.write Nat.one_pos rfl
  have h4 : CStep 1 1 (fun i j => c6Body i j ++ ['\n']) c6S3 c6Final :=
    CStep.release Nat.one_pos rfl
  have hreach : CReach 1 1 (fun i j => c6Body i j ++ ['\n']) c6Final :=
    Relation.ReflTransGen.tail (Relation.ReflTransGen.tail
      (Relation.ReflTransGen.tail (Relation.ReflTransGen.single h1) h2) h3) h4
  exact c6_concurrent_appends 1 1 (fun _ _ => c6Rec) c6Body c6Decode [] c6Final
    (by intro i j _ _
        show '\n' ∉ (['r'] : List Char)
        decide)
    (fun i j _ _ n sp => rfl)
    (fun i j _ _ => rfl)
    (by intro i j i₂ j₂ hi hj hi₂ hj₂ _; omega)
    hreach
    (by intro i hi
        have h₀ : i = 0 := by omega
        subst h₀
        rfl)
